import Mathlib

/-!
Verification of the opencompat provider-adapter core (Copilot provider).

Shallow embedding of:
- the error normalizer (parseUpstreamError / enhanceErrorMessage) from the
  stream source file;
- the request-translator heuristics (transformMessages, getInitiator,
  hasImageContent) from provider.go / client.go;
- the stream adapter state machine (Stream.Next, readNonStreaming,
  normalizeChunk, normalizeResponse) from the stream source file;
- the credential broker (getCopilotToken, getGitHubToken) from client.go,
  both as a sequential function and as an interleaving transition system
  for the double-checked-locking race.

External collaborators not present in the repository sources (the api data
types, the auth store, the sse reader, encoding/json) are modelled from the
spec as abstract data or abstract decode functions, as noted on each
definition.
-/

namespace Copilot

/-- Substring test on character lists: does the needle occur at some
position of the haystack?  Mirrors Go strings.Contains (an empty needle is
contained in every string). -/
def subAt : List Char → List Char → Bool
  | [], needle => needle.isEmpty
  | c :: t, needle => List.isPrefixOf needle (c :: t) || subAt t needle

/-- Mirrors Go strings.Contains on the character sequences of the two
strings. -/
def strContains (hay needle : String) : Bool :=
  subAt hay.data needle.data

/-- Mirrors Go strings.ToLower: lowercase the string character by
character. -/
def strToLower (s : String) : String :=
  String.mk (s.data.map Char.toLower)

/-- Modelled from the spec: the result of decoding an upstream error body
as JSON into the two candidate shapes (a nested error object carrying a
message, and a top-level message); Go json.Unmarshal leaves a missing
field as the empty string, and fails (`none`) on non-JSON bodies.  The
decoder itself (encoding/json) is outside the repository, so it is kept
abstract: `parseUpstreamError` takes it as a parameter. -/
structure ErrShape where
  errorMessage : String
  message : String
deriving DecidableEq, Repr

/-- The fixed remediation hint appended by enhanceErrorMessage. -/
def modelHint : String :=
  "\n\nMake sure the model is enabled in your Copilot settings: https://github.com/settings/copilot"

/-- Translation of enhanceErrorMessage: case-insensitively (the lowered
message stands for the local `lower` variable), if the message mentions
"model" together with "not supported" or "not available", append the fixed
remediation hint. -/
def enhanceErrorMessage (message : String) : String :=
  if strContains (strToLower message) "model" &&
      (strContains (strToLower message) "not supported" ||
       strContains (strToLower message) "not available") then
    message ++ modelHint
  else message

/-- The JSON branch of parseUpstreamError (its local `message` variable):
decode the body into the two candidate shapes via the abstract decoder and
prefer the nested error message over the top-level one; empty when the
body is not JSON or both fields are empty. -/
def selectJsonMessage (decodeErr : String → Option ErrShape) (body : String) : String :=
  match decodeErr body with
  | some e =>
    if e.errorMessage ≠ "" then e.errorMessage
    else if e.message ≠ "" then e.message
    else ""
  | none => ""

/-- The fallback branch of parseUpstreamError (its local `bodyStr`
variable): the raw body, truncated to 500 characters plus an ellipsis when
longer. -/
def truncatedBody (body : String) : String :=
  if body.length > 500 then body.take 500 ++ "..." else body

/-- Translation of parseUpstreamError: prefer the JSON-decoded message;
fall back to the truncated raw body, or the fixed "unknown error"
placeholder for an empty body (returned without the hint pass); finally
apply the hint pass. -/
def parseUpstreamError (decodeErr : String → Option ErrShape) (body : String) : String :=
  let message := selectJsonMessage decodeErr body
  if message = "" then
    if truncatedBody body = "" then "unknown error"
    else enhanceErrorMessage (truncatedBody body)
  else enhanceErrorMessage message

/-- Modelled from the spec: one content part of a message, tagged by type
(text, image reference, etc.); the wire format uses strings for the tag.
The api.Message type is not among the repository sources. -/
structure ContentPart where
  type : String
  payload : String
deriving DecidableEq, Repr

/-- Modelled from the spec: a chat message with a role (system, user,
assistant, tool as wire strings), its content parts (as returned by
GetContentParts), and an opaque `payload` standing for all remaining
fields the core never inspects.  The api.Message type is not among the
repository sources. -/
structure Message where
  role : String
  contentParts : List ContentPart
  payload : String
deriving DecidableEq, Repr

/-- Translation of transformMessages (provider.go): build a new sequence
of the same length where every system-role message has its role replaced
by assistant and every other message is copied unchanged. -/
def transformMessages (messages : List Message) : List Message :=
  messages.map (fun msg =>
    if msg.role = "system" then { msg with role := "assistant" } else msg)

/-- Translation of getInitiator (client.go): scan the messages in order;
the first assistant- or tool-role message makes the result "agent", and a
sequence with none of them yields "user". -/
def getInitiator : List Message → String
  | [] => "user"
  | msg :: rest =>
    if msg.role = "assistant" || msg.role = "tool" then "agent"
    else getInitiator rest

/-- Translation of hasImageContent (client.go): true when some content
part of some message has type image_url or image. -/
def hasImageContent (messages : List Message) : Bool :=
  messages.any (fun msg =>
    msg.contentParts.any (fun part =>
      part.type = "image_url" || part.type = "image"))

/-- Modelled from the spec: a streaming chunk (api.ChatCompletionChunk)
with its object-kind tag, creation timestamp (Unix seconds), and an opaque
`payload` for the fields the core never inspects; the api package is not
among the repository sources. -/
structure ChatCompletionChunk where
  object : String
  created : Nat
  payload : String
deriving DecidableEq, Repr

/-- Modelled from the spec: a non-streaming response
(api.ChatCompletionResponse), shaped like the chunk. -/
structure ChatCompletionResponse where
  object : String
  created : Nat
  payload : String
deriving DecidableEq, Repr

/-- Translation of normalizeChunk: fill in the object-kind and creation
timestamp when the upstream omitted them; `now` stands for
time.Now().Unix() at the call. -/
def normalizeChunk (now : Nat) (chunk : ChatCompletionChunk) : ChatCompletionChunk :=
  let chunk :=
    if chunk.object = "" then { chunk with object := "chat.completion.chunk" } else chunk
  if chunk.created = 0 then { chunk with created := now } else chunk

/-- Translation of normalizeResponse: same filling for the non-streaming
response object. -/
def normalizeResponse (now : Nat) (resp : ChatCompletionResponse) : ChatCompletionResponse :=
  let resp :=
    if resp.object = "" then { resp with object := "chat.completion" } else resp
  if resp.created = 0 then { resp with created := now } else resp

/-- Modelled from the spec: one server-sent event frame as produced by the
sse reader (not among the repository sources); only its data bytes matter
to the stream adapter. -/
structure Event where
  data : String
deriving DecidableEq, Repr

/-- Modelled from the spec: how the underlying sse reader terminates after
its events are exhausted — the natural end of the stream (io.EOF) or a
transport read error. -/
inductive ReaderEnd where
  | eof
  | ioErr (e : String)
deriving DecidableEq, Repr

/-- The errors a stream can surface: a normalized upstream error
(api.NewUpstreamError status message), a transport read error, or a JSON
decode error of a non-streaming body. -/
inductive StreamError where
  | upstream (status : Nat) (message : String)
  | ioError (e : String)
  | decodeError (body : String)
deriving DecidableEq, Repr

/-- The outcome of one Next call: Go (chunk, nil) is `chunk`, (nil, io.EOF)
is `eof`, and (nil, err) is `fail err`. -/
inductive NextResult where
  | chunk (c : ChatCompletionChunk)
  | eof
  | fail (e : StreamError)
deriving DecidableEq, Repr

/-- Translation of the Stream struct: the wrapped response (status, raw
body, and its sse framing for streaming calls) together with the mutable
cursor fields done / statusChecked / response / err. -/
structure Stream where
  respStatus : Nat
  respBody : String
  events : List Event
  readerEnd : ReaderEnd
  streaming : Bool
  done : Bool
  statusChecked : Bool
  response : Option ChatCompletionResponse
  err : Option StreamError
deriving DecidableEq, Repr

/-- Translation of NewStream: wrap a response with all cursor fields
reset. -/
def NewStream (status : Nat) (body : String) (events : List Event)
    (rend : ReaderEnd) (streaming : Bool) : Stream :=
  { respStatus := status, respBody := body, events := events, readerEnd := rend,
    streaming := streaming, done := false, statusChecked := false,
    response := none, err := none }

/-- Translation of the streaming read loop inside Next: read events one by
one, skipping empty-data events and events whose data fails to decode as a
chunk (the abstract `decodeChunk` stands for json.Unmarshal), returning
the first successfully decoded chunk normalized, or the reader's terminal
outcome.  Also yields the remaining events. -/
def readEventsLoop (decodeChunk : String → Option ChatCompletionChunk) (now : Nat)
    (rend : ReaderEnd) : List Event → NextResult × List Event
  | [] =>
    match rend with
    | ReaderEnd.eof => (NextResult.eof, [])
    | ReaderEnd.ioErr e => (NextResult.fail (StreamError.ioError e), [])
  | ev :: rest =>
    if ev.data = "" then readEventsLoop decodeChunk now rend rest
    else
      match decodeChunk ev.data with
      | none => readEventsLoop decodeChunk now rend rest
      | some chunk => (NextResult.chunk (normalizeChunk now chunk), rest)

/-- One streaming-mode Next step: run the read loop and update the cursor
fields the way the Go loop exit paths do (a returned chunk leaves the
stream live; reader end or a read error marks it done, the error being
retained for Err unless it is the natural end). -/
def streamStep (decodeChunk : String → Option ChatCompletionChunk) (now : Nat)
    (s : Stream) : NextResult × Stream :=
  match readEventsLoop decodeChunk now s.readerEnd s.events with
  | (NextResult.chunk c, rest) => (NextResult.chunk c, { s with events := rest })
  | (NextResult.eof, rest) => (NextResult.eof, { s with events := rest, done := true })
  | (NextResult.fail e, rest) =>
    (NextResult.fail e, { s with events := rest, done := true, err := some e })

/-- Translation of Next together with readNonStreaming: an exhausted
stream returns eof; the first call checks the HTTP status, turning a
non-success status into an UpstreamError built from parseUpstreamError on
the drained body; a successful non-streaming call decodes the whole body
(abstract `decodeResp` stands for json.Unmarshal), stores the normalized
response and reports eof; streaming calls run the event loop.  `now`
stands for time.Now().Unix(). -/
def Stream.next (decodeChunk : String → Option ChatCompletionChunk)
    (decodeErr : String → Option ErrShape)
    (decodeResp : String → Option ChatCompletionResponse)
    (now : Nat) (s : Stream) : NextResult × Stream :=
  if s.done then (NextResult.eof, s)
  else if !s.statusChecked then
    if s.respStatus ≠ 200 then
      let e := StreamError.upstream s.respStatus (parseUpstreamError decodeErr s.respBody)
      (NextResult.fail e, { s with statusChecked := true, done := true, err := some e })
    else if !s.streaming then
      match decodeResp s.respBody with
      | none =>
        let e := StreamError.decodeError s.respBody
        (NextResult.fail e, { s with statusChecked := true, done := true, err := some e })
      | some r =>
        (NextResult.eof,
          { s with statusChecked := true, done := true,
                   response := some (normalizeResponse now r) })
    else streamStep decodeChunk now { s with statusChecked := true }
  else streamStep decodeChunk now s

/-- Translation of the CopilotToken struct: short-lived access token plus
absolute expiry instant (time.Time modelled as Unix seconds). -/
structure CopilotToken where
  token : String
  expiresAt : Nat
deriving DecidableEq, Repr

/-- Modelled from the spec: the credential record returned by the external
auth store (auth.Store is not among the repository sources); the broker
reads only its RefreshToken field. -/
structure OAuthCredentials where
  refreshToken : String
deriving DecidableEq, Repr

/-- The freshness test of getCopilotToken:
time.Now().Add(60s).Before(ExpiresAt), i.e. now + 60 strictly before the
expiry. -/
def tokenFresh (now : Nat) (t : CopilotToken) : Bool :=
  decide (now + 60 < t.expiresAt)

/-- Freshness of the cached token slot (an absent token is never fresh). -/
def cacheFresh (now : Nat) : Option CopilotToken → Bool
  | some t => tokenFresh now t
  | none => false

/-- Translation of getGitHubToken: read the stored credentials (the
abstract `store` outcome stands for store.GetOAuthCredentials), wrap a
store failure, reject an empty refresh token, otherwise return it. -/
def getGitHubToken (store : Except String OAuthCredentials) : Except String String :=
  match store with
  | Except.error e => Except.error ("failed to get credentials: " ++ e)
  | Except.ok creds =>
    if creds.refreshToken = "" then
      Except.error "no GitHub token found - please run: opencompat login copilot"
    else Except.ok creds.refreshToken

/-- The refresh section of getCopilotToken, executed under the exclusive
lock after the double-check failed: fetch the GitHub token, exchange it
(the abstract `exchange` stands for refreshCopilotToken, a network call
returning a token or an error), and write the cache only on success.
Returns the call result together with the cache afterwards. -/
def refreshSection (store : Except String OAuthCredentials)
    (exchange : String → Except String CopilotToken)
    (cache : Option CopilotToken) : Except String String × Option CopilotToken :=
  match getGitHubToken store with
  | Except.error e => (Except.error e, cache)
  | Except.ok githubToken =>
    match exchange githubToken with
    | Except.error e => (Except.error e, cache)
    | Except.ok t => (Except.ok t.token, some t)

/-- The slow path of getCopilotToken: after acquiring the write lock,
re-check the freshness condition (double-checked pattern) and only then
refresh. -/
def getCopilotTokenSlow (now : Nat) (store : Except String OAuthCredentials)
    (exchange : String → Except String CopilotToken)
    (cache : Option CopilotToken) : Except String String × Option CopilotToken :=
  match cache with
  | some t =>
    if tokenFresh now t then (Except.ok t.token, some t)
    else refreshSection store exchange (some t)
  | none => refreshSection store exchange none

/-- Sequential translation of getCopilotToken: the fast path returns a
fresh cached token under the read lock; otherwise the slow path runs under
the write lock.  The pair is (call result, cache afterwards). -/
def getCopilotToken (now : Nat) (store : Except String OAuthCredentials)
    (exchange : String → Except String CopilotToken)
    (cache : Option CopilotToken) : Except String String × Option CopilotToken :=
  match cache with
  | some t =>
    if tokenFresh now t then (Except.ok t.token, some t)
    else getCopilotTokenSlow now store exchange (some t)
  | none => getCopilotTokenSlow now store exchange none

/-- The control state of one caller racing through getCopilotToken:
before its fast-path read-lock check, between the read unlock and the
write-lock acquisition, or finished with the token string it returned. -/
inductive CallerState where
  | start
  | slow
  | finished (result : String)
deriving DecidableEq, Repr

/-- Whether a caller has returned. -/
def CallerState.isFinished : CallerState → Bool
  | CallerState.finished _ => true
  | _ => false

/-- A configuration of the token race: the broker fields guarded by the
RWMutex (cached token, plus a count of upstream exchange calls performed)
and the control state of every concurrent caller. -/
structure BrokerConfig where
  cache : Option CopilotToken
  exchanges : Nat
  callers : List CallerState
deriving DecidableEq, Repr

/-- Interleaving semantics of getCopilotToken under the RWMutex, for a
race window in which the clock reads `now` and the upstream exchange, when
performed, succeeds with the token `fresh`.  The fast-path check runs
under the read lock (one atomic read of the cache); the whole slow path —
double-check, refresh, cache write — runs under the exclusive write lock
and is therefore one atomic step, either observing a fresh cache and
returning it (slowHit) or performing the one exchange and publishing its
result (slowRefresh). -/
inductive BrokerStep (now : Nat) (fresh : CopilotToken) :
    BrokerConfig → BrokerConfig → Prop where
  | fastHit (cfg : BrokerConfig) (i : Nat) (t : CopilotToken)
      (hi : cfg.callers[i]? = some CallerState.start)
      (hc : cfg.cache = some t) (hv : tokenFresh now t = true) :
      BrokerStep now fresh cfg
        { cfg with callers := cfg.callers.set i (CallerState.finished t.token) }
  | fastMiss (cfg : BrokerConfig) (i : Nat)
      (hi : cfg.callers[i]? = some CallerState.start)
      (hm : cacheFresh now cfg.cache = false) :
      BrokerStep now fresh cfg
        { cfg with callers := cfg.callers.set i CallerState.slow }
  | slowHit (cfg : BrokerConfig) (i : Nat) (t : CopilotToken)
      (hi : cfg.callers[i]? = some CallerState.slow)
      (hc : cfg.cache = some t) (hv : tokenFresh now t = true) :
      BrokerStep now fresh cfg
        { cfg with callers := cfg.callers.set i (CallerState.finished t.token) }
  | slowRefresh (cfg : BrokerConfig) (i : Nat)
      (hi : cfg.callers[i]? = some CallerState.slow)
      (hm : cacheFresh now cfg.cache = false) :
      BrokerStep now fresh cfg
        { cache := some fresh, exchanges := cfg.exchanges + 1,
          callers := cfg.callers.set i (CallerState.finished fresh.token) }

/-- The race invariant: the caller count never changes, and the broker is
in one of two phases — nothing refreshed yet (no exchange performed, the
cache still holds its initial stale/absent value, nobody has returned) or
refreshed exactly once (one exchange, the cache holds the fresh token, and
every returned caller returned exactly that token). -/
def BrokerInv (fresh : CopilotToken) (cache0 : Option CopilotToken)
    (n : Nat) (cfg : BrokerConfig) : Prop :=
  cfg.callers.length = n ∧
  ((cfg.exchanges = 0 ∧ cfg.cache = cache0 ∧
      ∀ s ∈ cfg.callers, s.isFinished = false) ∨
   (cfg.exchanges = 1 ∧ cfg.cache = some fresh ∧
      ∀ r, CallerState.finished r ∈ cfg.callers → r = fresh.token))

/-! ## Theorems -/

/-- C7: ChatCompletion remaps every system-role message to assistant
before building the wire request, leaving every other message's role, all
non-role fields, and the length and order of the sequence unchanged; the
embedding is pure, so the caller's original sequence is not mutated. -/
theorem transformMessages_remaps_system (messages : List Message) :
    (transformMessages messages).length = messages.length ∧
    ∀ (i : Nat) (msg : Message), messages[i]? = some msg →
      (transformMessages messages)[i]? =
        some { msg with role := if msg.role = "system" then "assistant" else msg.role } := by
  constructor
  · simp [transformMessages]
  · intro i msg h
    simp only [transformMessages, List.getElem?_map, h, Option.map_some]
    by_cases hr : msg.role = "system" <;> simp [hr]

/-- Witness for C7 at a concrete two-message sequence. -/
theorem transformMessages_remaps_system_witness :
    (transformMessages [⟨"system", [], "s"⟩, ⟨"user", [], "u"⟩])[0]? =
      some { role := "assistant", contentParts := [], payload := "s" } :=
  (transformMessages_remaps_system [⟨"system", [], "s"⟩, ⟨"user", [], "u"⟩]).2 0
    ⟨"system", [], "s"⟩ rfl

/-- C8: the initiator heuristic yields "user" exactly when no message has
role assistant or tool, and "agent" as soon as one such message occurs. -/
theorem getInitiator_spec (messages : List Message) :
    ((∀ m ∈ messages, m.role ≠ "assistant" ∧ m.role ≠ "tool") →
      getInitiator messages = "user") ∧
    ((∃ m ∈ messages, m.role = "assistant" ∨ m.role = "tool") →
      getInitiator messages = "agent") := by
  induction messages with
  | nil =>
    refine ⟨fun _ => rfl, ?_⟩
    rintro ⟨m, hm, -⟩
    simp at hm
  | cons m rest ih =>
    refine ⟨?_, ?_⟩
    · intro h
      have hm := h m (List.mem_cons_self m rest)
      have hcond : (m.role = "assistant" || m.role = "tool") = false := by
        simp [hm.1, hm.2]
      simp only [getInitiator, hcond, Bool.false_eq_true, if_false]
      exact ih.1 (fun x hx => h x (List.mem_cons_of_mem m hx))
    · rintro ⟨x, hx, hrole⟩
      rcases List.mem_cons.mp hx with rfl | hx2
      · have hcond : (x.role = "assistant" || x.role = "tool") = true := by
          rcases hrole with h1 | h1 <;> simp [h1]
        simp [getInitiator, hcond]
      · by_cases hcond : (m.role = "assistant" || m.role = "tool") = true
        · simp [getInitiator, hcond]
        · simp only [Bool.not_eq_true] at hcond
          simp only [getInitiator, hcond, Bool.false_eq_true, if_false]
          exact ih.2 ⟨x, hx2, hrole⟩

/-- Witness for C8 at concrete sequences: an all-user conversation is a
first turn, one with an assistant message is a follow-up. -/
theorem getInitiator_spec_witness :
    getInitiator [⟨"user", [], ""⟩] = "user" ∧
    getInitiator [⟨"user", [], ""⟩, ⟨"assistant", [], ""⟩] = "agent" :=
  ⟨(getInitiator_spec [⟨"user", [], ""⟩]).1 (by decide),
   (getInitiator_spec [⟨"user", [], ""⟩, ⟨"assistant", [], ""⟩]).2
     ⟨⟨"assistant", [], ""⟩, by simp, Or.inl rfl⟩⟩

/-- C9: the vision-capability flag is true exactly when some content part
of some message has an image type. -/
theorem hasImageContent_iff (messages : List Message) :
    hasImageContent messages = true ↔
      ∃ m ∈ messages, ∃ p ∈ m.contentParts,
        p.type = "image_url" ∨ p.type = "image" := by
  simp [hasImageContent, List.any_eq_true]

/-- The hint string is not empty (its length is a fixed positive
number). -/
theorem modelHint_length_pos : 0 < modelHint.length := by decide

/-- Appending the hint strictly changes a string. -/
theorem ne_append_modelHint (m : String) : m ≠ m ++ modelHint := by
  intro h
  have hl := congrArg String.length h
  rw [String.length_append] at hl
  have := modelHint_length_pos
  omega

/-- A string with the hint appended is never empty. -/
theorem append_modelHint_ne_empty (m : String) : m ++ modelHint ≠ "" := by
  intro h
  have hl : (m ++ modelHint).length = 0 := by rw [h]; rfl
  rw [String.length_append] at hl
  have := modelHint_length_pos
  omega

/-- enhanceErrorMessage returns either the message itself or the message
with the hint appended, so it preserves non-emptiness. -/
theorem enhanceErrorMessage_ne_empty (m : String) (h : m ≠ "") :
    enhanceErrorMessage m ≠ "" := by
  unfold enhanceErrorMessage
  split
  · exact append_modelHint_ne_empty m
  · exact h

/-- Unfolding equation of parseUpstreamError in terms of its two
branches. -/
theorem parseUpstreamError_eq (decodeErr : String → Option ErrShape) (body : String) :
    parseUpstreamError decodeErr body =
      if selectJsonMessage decodeErr body = "" then
        if truncatedBody body = "" then "unknown error"
        else enhanceErrorMessage (truncatedBody body)
      else enhanceErrorMessage (selectJsonMessage decodeErr body) := rfl

/-- A non-empty body stays non-empty after truncation. -/
theorem truncatedBody_ne_empty (body : String) (h : body ≠ "") :
    truncatedBody body ≠ "" := by
  unfold truncatedBody
  split
  · intro hc
    have hl : (body.take 500 ++ "...").length = 0 := by rw [hc]; rfl
    rw [String.length_append] at hl
    have h3 : ("..." : String).length = 3 := rfl
    omega
  · exact h

/-- C4: the error normalizer prefers the nested error message over the
top-level one, falls back to the raw body (truncated to 500 characters
with an ellipsis when longer) when neither JSON shape yields a non-empty
message, uses the fixed "unknown error" placeholder for an empty body, and
appends the remediation hint exactly when the message case-insensitively
mentions "model" together with "not supported" or "not available" — so
"file not available" gets no hint. -/
theorem parseUpstreamError_message_selection
    (decodeErr : String → Option ErrShape) (body m : String) (e : ErrShape) :
    (decodeErr body = some e → e.errorMessage ≠ "" →
      parseUpstreamError decodeErr body = enhanceErrorMessage e.errorMessage) ∧
    (decodeErr body = some e → e.errorMessage = "" → e.message ≠ "" →
      parseUpstreamError decodeErr body = enhanceErrorMessage e.message) ∧
    (decodeErr body = none ∨ decodeErr body = some ⟨"", ""⟩ → body ≠ "" →
      body.length ≤ 500 →
      parseUpstreamError decodeErr body = enhanceErrorMessage body) ∧
    (decodeErr body = none ∨ decodeErr body = some ⟨"", ""⟩ → 500 < body.length →
      parseUpstreamError decodeErr body =
        enhanceErrorMessage (body.take 500 ++ "...")) ∧
    (decodeErr body = none ∨ decodeErr body = some ⟨"", ""⟩ → body = "" →
      parseUpstreamError decodeErr body = "unknown error") ∧
    (enhanceErrorMessage m = m ++ modelHint ↔
      (strContains (strToLower m) "model" = true ∧
        (strContains (strToLower m) "not supported" = true ∨
         strContains (strToLower m) "not available" = true))) ∧
    enhanceErrorMessage "file not available" = "file not available" := by
  have hsel_none : decodeErr body = none → selectJsonMessage decodeErr body = "" := by
    intro hdec
    simp [selectJsonMessage, hdec]
  have hsel_blank : decodeErr body = some ⟨"", ""⟩ →
      selectJsonMessage decodeErr body = "" := by
    intro hdec
    simp [selectJsonMessage, hdec]
  refine ⟨?_, ?_, ?_, ?_, ?_, ?_, by decide⟩
  · intro hdec hne
    have hsel : selectJsonMessage decodeErr body = e.errorMessage := by
      simp [selectJsonMessage, hdec, hne]
    rw [parseUpstreamError_eq, hsel, if_neg hne]
  · intro hdec he hne
    have hsel : selectJsonMessage decodeErr body = e.message := by
      simp [selectJsonMessage, hdec, he, hne]
    rw [parseUpstreamError_eq, hsel, if_neg hne]
  · intro hdec hne hle
    have hsel : selectJsonMessage decodeErr body = "" := by
      rcases hdec with hdec | hdec
      · exact hsel_none hdec
      · exact hsel_blank hdec
    have htr : truncatedBody body = body := by
      unfold truncatedBody
      rw [if_neg (by omega)]
    rw [parseUpstreamError_eq, hsel, if_pos rfl, htr, if_neg hne]
  · intro hdec hgt
    have hsel : selectJsonMessage decodeErr body = "" := by
      rcases hdec with hdec | hdec
      · exact hsel_none hdec
      · exact hsel_blank hdec
    have hne : body ≠ "" := by
      intro h
      rw [h] at hgt
      exact absurd hgt (by decide)
    have htr : truncatedBody body = body.take 500 ++ "..." := by
      unfold truncatedBody
      rw [if_pos hgt]
    rw [parseUpstreamError_eq, hsel, if_pos rfl,
        if_neg (truncatedBody_ne_empty body hne), htr]
  · intro hdec hbody
    subst hbody
    have hsel : selectJsonMessage decodeErr "" = "" := by
      rcases hdec with hdec | hdec
      · exact hsel_none hdec
      · exact hsel_blank hdec
    rw [parseUpstreamError_eq, hsel, if_pos rfl,
        if_pos (show truncatedBody "" = "" by decide)]
  · constructor
    · intro h
      by_cases hc : (strContains (strToLower m) "model" &&
          (strContains (strToLower m) "not supported" ||
           strContains (strToLower m) "not available")) = true
      · simpa using hc
      · exfalso
        apply ne_append_modelHint m
        have hm : enhanceErrorMessage m = m := by
          unfold enhanceErrorMessage
          rw [if_neg hc]
        exact hm.symm.trans h
    · intro h
      have hc : (strContains (strToLower m) "model" &&
          (strContains (strToLower m) "not supported" ||
           strContains (strToLower m) "not available")) = true := by
        rw [h.1]
        rcases h.2 with h2 | h2 <;> simp [h2]
      unfold enhanceErrorMessage
      rw [if_pos hc]

/-- Witness for C4: the empty body yields the placeholder, and a concrete
"model not available" message gets the hint while "file not available"
does not. -/
theorem parseUpstreamError_message_selection_witness :
    parseUpstreamError (fun _ => none) "" = "unknown error" ∧
    enhanceErrorMessage "model not available" = "model not available" ++ modelHint :=
  ⟨(parseUpstreamError_message_selection (fun _ => none) "" "m" ⟨"", ""⟩).2.2.2.2.1
      (Or.inl rfl) rfl,
   (parseUpstreamError_message_selection (fun _ => none) "" "model not available"
      ⟨"", ""⟩).2.2.2.2.2.1.mpr (by decide)⟩

/-- C10: the upstream-error parser never returns the empty string, for any
decoder outcome and any body. -/
theorem parseUpstreamError_ne_empty (decodeErr : String → Option ErrShape)
    (body : String) : parseUpstreamError decodeErr body ≠ "" := by
  rw [parseUpstreamError_eq]
  by_cases hsel : selectJsonMessage decodeErr body = ""
  · rw [if_pos hsel]
    by_cases htr : truncatedBody body = ""
    · rw [if_pos htr]
      decide
    · rw [if_neg htr]
      exact enhanceErrorMessage_ne_empty _ htr
  · rw [if_neg hsel]
    exact enhanceErrorMessage_ne_empty _ hsel

/-- Witness for C9 at a concrete sequence with one image part. -/
theorem hasImageContent_iff_witness :
    hasImageContent [⟨"user", [⟨"text", "hi"⟩, ⟨"image_url", "u"⟩], ""⟩] = true :=
  (hasImageContent_iff [⟨"user", [⟨"text", "hi"⟩, ⟨"image_url", "u"⟩], ""⟩]).mpr
    ⟨⟨"user", [⟨"text", "hi"⟩, ⟨"image_url", "u"⟩], ""⟩, by simp,
     ⟨"image_url", "u"⟩, by simp, Or.inl rfl⟩

/-- C2: on a chat response with a non-success status, the first Next call
returns an UpstreamError carrying that status and the message computed by
the error normalizer on the drained body, the stream is marked exhausted,
and every exhausted stream answers eof to all further Next calls. -/
theorem next_upstream_error
    (decodeChunk : String → Option ChatCompletionChunk)
    (decodeErr : String → Option ErrShape)
    (decodeResp : String → Option ChatCompletionResponse)
    (now status : Nat) (body : String) (events : List Event)
    (rend : ReaderEnd) (streaming : Bool) (h : status ≠ 200) :
    (Stream.next decodeChunk decodeErr decodeResp now
        (NewStream status body events rend streaming)).1 =
      NextResult.fail (StreamError.upstream status (parseUpstreamError decodeErr body)) ∧
    ((Stream.next decodeChunk decodeErr decodeResp now
        (NewStream status body events rend streaming)).2).done = true ∧
    ∀ s : Stream, s.done = true →
      Stream.next decodeChunk decodeErr decodeResp now s = (NextResult.eof, s) := by
  refine ⟨?_, ?_, ?_⟩
  · simp [Stream.next, NewStream, h]
  · simp [Stream.next, NewStream, h]
  · intro s hs
    simp [Stream.next, hs]

/-- Witness for C2 at a concrete 500 response. -/
theorem next_upstream_error_witness :
    (Stream.next (fun _ => none) (fun _ => none) (fun _ => none) 0
        (NewStream 500 "" [] ReaderEnd.eof false)).1 =
      NextResult.fail (StreamError.upstream 500
        (parseUpstreamError (fun _ => none) "")) :=
  (next_upstream_error (fun _ => none) (fun _ => none) (fun _ => none) 0 500 ""
    [] ReaderEnd.eof false (by decide)).1

/-- C3: in streaming mode with a success status, the read loop skips every
empty-data event and every event whose data fails to decode, and returns a
successfully decoded chunk normalized (object-kind and timestamp filled in
when missing); on the body with one empty-data event, one malformed event
and one well-formed chunk event, Next yields exactly that chunk and then
eof with no error. -/
theorem next_streaming_skip
    (decodeChunk : String → Option ChatCompletionChunk)
    (decodeErr : String → Option ErrShape)
    (decodeResp : String → Option ChatCompletionResponse)
    (now : Nat) (body dMal dGood : String) (c : ChatCompletionChunk)
    (hm : dMal ≠ "") (hg : dGood ≠ "")
    (hdm : decodeChunk dMal = none) (hdg : decodeChunk dGood = some c) :
    (∀ rend rest, readEventsLoop decodeChunk now rend (Event.mk "" :: rest) =
        readEventsLoop decodeChunk now rend rest) ∧
    (∀ rend rest, readEventsLoop decodeChunk now rend (Event.mk dMal :: rest) =
        readEventsLoop decodeChunk now rend rest) ∧
    (∀ rend rest, readEventsLoop decodeChunk now rend (Event.mk dGood :: rest) =
        (NextResult.chunk (normalizeChunk now c), rest)) ∧
    (0 < now → (normalizeChunk now c).object ≠ "" ∧ (normalizeChunk now c).created ≠ 0) ∧
    ((Stream.next decodeChunk decodeErr decodeResp now
        (NewStream 200 body [Event.mk "", Event.mk dMal, Event.mk dGood]
          ReaderEnd.eof true)).1 = NextResult.chunk (normalizeChunk now c) ∧
     (Stream.next decodeChunk decodeErr decodeResp now
        (Stream.next decodeChunk decodeErr decodeResp now
          (NewStream 200 body [Event.mk "", Event.mk dMal, Event.mk dGood]
            ReaderEnd.eof true)).2).1 = NextResult.eof ∧
     (Stream.next decodeChunk decodeErr decodeResp now
        (Stream.next decodeChunk decodeErr decodeResp now
          (NewStream 200 body [Event.mk "", Event.mk dMal, Event.mk dGood]
            ReaderEnd.eof true)).2).2.err = none) := by
  have hskip1 : ∀ rend rest, readEventsLoop decodeChunk now rend (Event.mk "" :: rest) =
      readEventsLoop decodeChunk now rend rest := by
    intro rend rest
    simp [readEventsLoop]
  have hskip2 : ∀ rend rest, readEventsLoop decodeChunk now rend (Event.mk dMal :: rest) =
      readEventsLoop decodeChunk now rend rest := by
    intro rend rest
    simp [readEventsLoop, hm, hdm]
  have hret : ∀ rend rest, readEventsLoop decodeChunk now rend (Event.mk dGood :: rest) =
      (NextResult.chunk (normalizeChunk now c), rest) := by
    intro rend rest
    simp [readEventsLoop, hg, hdg]
  refine ⟨hskip1, hskip2, hret, ?_, ?_, ?_, ?_⟩
  · intro hnow
    unfold normalizeChunk
    by_cases ho : c.object = "" <;> by_cases hc2 : c.created = 0 <;>
      simp [ho, hc2] <;> omega
  · simp only [Stream.next, NewStream, streamStep]
    rw [hskip1, hskip2, hret]
    simp
  · simp only [Stream.next, NewStream, streamStep]
    rw [hskip1, hskip2, hret]
    simp [Stream.next, streamStep, readEventsLoop]
  · simp only [Stream.next, NewStream, streamStep]
    rw [hskip1, hskip2, hret]
    simp [Stream.next, streamStep, readEventsLoop]

/-- Witness for C3 with a concrete decoder that accepts exactly one frame. -/
theorem next_streaming_skip_witness :
    (Stream.next (fun d => if d = "good" then some ⟨"", 0, "p"⟩ else none)
        (fun _ => none) (fun _ => none) 7
        (NewStream 200 "" [Event.mk "", Event.mk "bad", Event.mk "good"]
          ReaderEnd.eof true)).1 =
      NextResult.chunk (normalizeChunk 7 ⟨"", 0, "p"⟩) :=
  (next_streaming_skip (fun d => if d = "good" then some ⟨"", 0, "p"⟩ else none)
    (fun _ => none) (fun _ => none) 7 "" "bad" "good" ⟨"", 0, "p"⟩
    (by decide) (by decide) (by decide) (by decide)).2.2.2.2.1

/-- C5: a non-streaming call with a success status and a decodable body
answers the first Next with a bare eof signal, stores the decoded response
normalized (non-empty object-kind, non-zero timestamp even when the body
omitted them, given a positive clock), and stays exhausted. -/
theorem next_nonstreaming_normalized
    (decodeChunk : String → Option ChatCompletionChunk)
    (decodeErr : String → Option ErrShape)
    (decodeResp : String → Option ChatCompletionResponse)
    (now : Nat) (body : String) (events : List Event) (rend : ReaderEnd)
    (r : ChatCompletionResponse)
    (hdec : decodeResp body = some r) (hnow : 0 < now) :
    (Stream.next decodeChunk decodeErr decodeResp now
        (NewStream 200 body events rend false)).1 = NextResult.eof ∧
    ((Stream.next decodeChunk decodeErr decodeResp now
        (NewStream 200 body events rend false)).2).response =
      some (normalizeResponse now r) ∧
    (normalizeResponse now r).object ≠ "" ∧
    (normalizeResponse now r).created ≠ 0 ∧
    (Stream.next decodeChunk decodeErr decodeResp now
        (Stream.next decodeChunk decodeErr decodeResp now
          (NewStream 200 body events rend false)).2).1 = NextResult.eof := by
  refine ⟨?_, ?_, ?_, ?_, ?_⟩
  · simp [Stream.next, NewStream, hdec]
  · simp [Stream.next, NewStream, hdec]
  · unfold normalizeResponse
    by_cases ho : r.object = "" <;> by_cases hc2 : r.created = 0 <;> simp [ho, hc2]
  · unfold normalizeResponse
    by_cases ho : r.object = "" <;> by_cases hc2 : r.created = 0 <;>
      simp [ho, hc2] <;> omega
  · simp [Stream.next, NewStream, hdec]

/-- Witness for C5 at a concrete body whose decoded response omits both
normalized fields. -/
theorem next_nonstreaming_normalized_witness :
    ((Stream.next (fun _ => none) (fun _ => none)
        (fun d => if d = "resp" then some ⟨"", 0, "p"⟩ else none) 7
        (NewStream 200 "resp" [] ReaderEnd.eof false)).2).response =
      some (normalizeResponse 7 ⟨"", 0, "p"⟩) :=
  (next_nonstreaming_normalized (fun _ => none) (fun _ => none)
    (fun d => if d = "resp" then some ⟨"", 0, "p"⟩ else none) 7 "resp" []
    ReaderEnd.eof ⟨"", 0, "p"⟩ (by decide) (by decide)).2.1

/-- Witness for C10 at a concrete non-JSON empty body. -/
theorem parseUpstreamError_ne_empty_witness :
    parseUpstreamError (fun _ => none) "" ≠ "" :=
  parseUpstreamError_ne_empty (fun _ => none) ""

/-- C6: when the cached token is stale or absent and the refresh path
fails — the stored credential cannot be read (or holds an empty token), or
the exchange fails — getCopilotToken returns an error and leaves the cache
exactly as it was. -/
theorem getCopilotToken_failure_preserves_cache
    (now : Nat) (store : Except String OAuthCredentials)
    (exchange : String → Except String CopilotToken) (cache : Option CopilotToken)
    (hstale : cacheFresh now cache = false)
    (hfail : (∃ e, getGitHubToken store = Except.error e) ∨
             (∀ g, getGitHubToken store = Except.ok g →
                ∃ e, exchange g = Except.error e)) :
    (∃ e, (getCopilotToken now store exchange cache).1 = Except.error e) ∧
    (getCopilotToken now store exchange cache).2 = cache := by
  have hrefresh : (∃ e, (refreshSection store exchange cache).1 = Except.error e) ∧
      (refreshSection store exchange cache).2 = cache := by
    cases hgh : getGitHubToken store with
    | error e =>
      refine ⟨⟨e, ?_⟩, ?_⟩ <;> simp [refreshSection, hgh]
    | ok g =>
      rcases hfail with ⟨e, he⟩ | hf
      · rw [hgh] at he
        simp at he
      · obtain ⟨e, he⟩ := hf g hgh
        refine ⟨⟨e, ?_⟩, ?_⟩ <;> simp [refreshSection, hgh, he]
  cases cache with
  | none =>
    simpa [getCopilotToken, getCopilotTokenSlow] using hrefresh
  | some t =>
    have hft : tokenFresh now t = false := by simpa [cacheFresh] using hstale
    simpa [getCopilotToken, getCopilotTokenSlow, hft] using hrefresh

/-- Witness for C6: a failing credential store with an empty cache. -/
theorem getCopilotToken_failure_preserves_cache_witness :
    (∃ e, (getCopilotToken 0 (Except.error "boom")
        (fun _ => Except.error "x") none).1 = Except.error e) ∧
    (getCopilotToken 0 (Except.error "boom")
        (fun _ => Except.error "x") none).2 = none :=
  getCopilotToken_failure_preserves_cache 0 (Except.error "boom")
    (fun _ => Except.error "x") none rfl
    (Or.inl ⟨"failed to get credentials: " ++ "boom", rfl⟩)

/-- One step of the token race preserves the race invariant. -/
theorem brokerStep_inv (now : Nat) (fresh : CopilotToken)
    (cache0 : Option CopilotToken) (n : Nat)
    (hstale : cacheFresh now cache0 = false)
    (hfresh : tokenFresh now fresh = true)
    {c c2 : BrokerConfig} (hstep : BrokerStep now fresh c c2)
    (hinv : BrokerInv fresh cache0 n c) : BrokerInv fresh cache0 n c2 := by
  obtain ⟨hlen, hphase⟩ := hinv
  cases hstep with
  | fastHit i t hi hc hv =>
    refine ⟨by simpa [List.length_set] using hlen, ?_⟩
    rcases hphase with ⟨hx, hcache, hfin⟩ | ⟨hx, hcache, hfin⟩
    · exfalso
      have h1 : cache0 = some t := hcache.symm.trans hc
      rw [h1] at hstale
      simp only [cacheFresh] at hstale
      rw [hstale] at hv
      exact Bool.false_ne_true hv
    · refine Or.inr ⟨hx, hcache, ?_⟩
      intro r hr
      rcases List.mem_or_eq_of_mem_set hr with hr | hr
      · exact hfin r hr
      · have ht : t = fresh := Option.some.inj (hc.symm.trans hcache)
        injection hr with h
        rw [h, ht]
  | fastMiss i hi hmiss =>
    refine ⟨by simpa [List.length_set] using hlen, ?_⟩
    rcases hphase with ⟨hx, hcache, hfin⟩ | ⟨hx, hcache, hfin⟩
    · refine Or.inl ⟨hx, hcache, ?_⟩
      intro s hs
      rcases List.mem_or_eq_of_mem_set hs with hs | hs
      · exact hfin s hs
      · rw [hs]
        rfl
    · refine Or.inr ⟨hx, hcache, ?_⟩
      intro r hr
      rcases List.mem_or_eq_of_mem_set hr with hr | hr
      · exact hfin r hr
      · exact absurd hr (by simp)
  | slowHit i t hi hc hv =>
    refine ⟨by simpa [List.length_set] using hlen, ?_⟩
    rcases hphase with ⟨hx, hcache, hfin⟩ | ⟨hx, hcache, hfin⟩
    · exfalso
      have h1 : cache0 = some t := hcache.symm.trans hc
      rw [h1] at hstale
      simp only [cacheFresh] at hstale
      rw [hstale] at hv
      exact Bool.false_ne_true hv
    · refine Or.inr ⟨hx, hcache, ?_⟩
      intro r hr
      rcases List.mem_or_eq_of_mem_set hr with hr | hr
      · exact hfin r hr
      · have ht : t = fresh := Option.some.inj (hc.symm.trans hcache)
        injection hr with h
        rw [h, ht]
  | slowRefresh i hi hmiss =>
    refine ⟨by simpa [List.length_set] using hlen, ?_⟩
    rcases hphase with ⟨hx, hcache, hfin⟩ | ⟨hx, hcache, hfin⟩
    · refine Or.inr ⟨by rw [hx], rfl, ?_⟩
      intro r hr
      rcases List.mem_or_eq_of_mem_set hr with hr | hr
      · have := hfin _ hr
        simp [CallerState.isFinished] at this
      · exact CallerState.finished.inj hr
    · exfalso
      rw [hcache] at hmiss
      simp only [cacheFresh] at hmiss
      rw [hfresh] at hmiss
      exact Bool.false_ne_true hmiss.symm

/-- The race invariant holds in every configuration reachable from one
satisfying it. -/
theorem brokerReach_inv (now : Nat) (fresh : CopilotToken)
    (cache0 : Option CopilotToken) (n : Nat)
    (hstale : cacheFresh now cache0 = false)
    (hfresh : tokenFresh now fresh = true)
    {c c2 : BrokerConfig}
    (h : Relation.ReflTransGen (BrokerStep now fresh) c c2)
    (hinv : BrokerInv fresh cache0 n c) : BrokerInv fresh cache0 n c2 := by
  induction h with
  | refl => exact hinv
  | tail hsteps hstep ih =>
    exact brokerStep_inv now fresh cache0 n hstale hfresh hstep ih

/-- C1: in any interleaving of concurrent getCopilotToken callers starting
from a stale or absent cached token (during a race window at clock `now`,
the exchange succeeding with the valid token `fresh`), once every caller
has returned, exactly one upstream exchange was performed, the cache holds
the fresh token, and every caller returned exactly that token. -/
theorem getCopilotToken_race_single_exchange
    (now : Nat) (fresh : CopilotToken) (cache0 : Option CopilotToken)
    (callers0 : List CallerState) (cfg : BrokerConfig)
    (hstale : cacheFresh now cache0 = false)
    (hfresh : tokenFresh now fresh = true)
    (hne : callers0 ≠ [])
    (hstart : ∀ s ∈ callers0, s = CallerState.start)
    (hreach : Relation.ReflTransGen (BrokerStep now fresh)
      ⟨cache0, 0, callers0⟩ cfg)
    (hdone : ∀ s ∈ cfg.callers, s.isFinished = true) :
    cfg.exchanges = 1 ∧ cfg.cache = some fresh ∧
    ∀ r, CallerState.finished r ∈ cfg.callers → r = fresh.token := by
  have hinv0 : BrokerInv fresh cache0 callers0.length ⟨cache0, 0, callers0⟩ := by
    refine ⟨rfl, Or.inl ⟨rfl, rfl, ?_⟩⟩
    intro s hs
    rw [hstart s hs]
    rfl
  obtain ⟨hlen, hphase⟩ :=
    brokerReach_inv now fresh cache0 callers0.length hstale hfresh hreach hinv0
  rcases hphase with ⟨-, -, hfin⟩ | ⟨hx, hcache, hfin⟩
  · exfalso
    have hne2 : cfg.callers ≠ [] := by
      intro h0
      rw [h0] at hlen
      exact hne (List.eq_nil_of_length_eq_zero hlen.symm)
    obtain ⟨s, hs⟩ := List.exists_mem_of_ne_nil cfg.callers hne2
    have h1 := hfin s hs
    have h2 := hdone s hs
    rw [h1] at h2
    exact Bool.false_ne_true h2
  · exact ⟨hx, hcache, hfin⟩

/-- Witness for C1: a concrete two-caller race in which both callers miss
the fast path, the first performs the single refresh under the write lock,
and the second observes the fresh token in its double-check. -/
theorem getCopilotToken_race_single_exchange_witness :
    (⟨some ⟨"tok", 100⟩, 1,
      [CallerState.finished "tok", CallerState.finished "tok"]⟩ :
        BrokerConfig).exchanges = 1 ∧
    (⟨some ⟨"tok", 100⟩, 1,
      [CallerState.finished "tok", CallerState.finished "tok"]⟩ :
        BrokerConfig).cache = some ⟨"tok", 100⟩ ∧
    ∀ r, CallerState.finished r ∈
        (⟨some ⟨"tok", 100⟩, 1,
          [CallerState.finished "tok", CallerState.finished "tok"]⟩ :
            BrokerConfig).callers →
      r = (⟨"tok", 100⟩ : CopilotToken).token :=
  getCopilotToken_race_single_exchange 0 ⟨"tok", 100⟩ none
    [CallerState.start, CallerState.start]
    ⟨some ⟨"tok", 100⟩, 1, [CallerState.finished "tok", CallerState.finished "tok"]⟩
    rfl (by decide) (by decide) (by decide)
    (Relation.ReflTransGen.tail
      (Relation.ReflTransGen.tail
        (Relation.ReflTransGen.tail
          (Relation.ReflTransGen.tail Relation.ReflTransGen.refl
            (BrokerStep.fastMiss ⟨none, 0, [CallerState.start, CallerState.start]⟩
              0 rfl rfl))
          (BrokerStep.fastMiss ⟨none, 0, [CallerState.slow, CallerState.start]⟩
            1 rfl rfl))
        (BrokerStep.slowRefresh ⟨none, 0, [CallerState.slow, CallerState.slow]⟩
          0 rfl rfl))
      (BrokerStep.slowHit
        ⟨some ⟨"tok", 100⟩, 1, [CallerState.finished "tok", CallerState.slow]⟩
        1 ⟨"tok", 100⟩ rfl rfl (by decide)))
    (by decide)

end Copilot
